import Mathlib

/-!
Verification development for the APISIX log schema extractor and the schema
difference analyzer (`jsonparsor.py`, `schemadiffertiater.py`).

The Python code is embedded shallowly:

* JSON values (the result of `json.loads`) become the inductive `Json`.
  Python distinguishes `int` (integer literals) from `float` (all other
  number literals); the embedding mirrors this with the constructors
  `Json.int` and `Json.num`.  Python `dict`s are insertion-ordered with
  distinct keys; they are modelled as association lists (theorems that
  depend on key distinctness carry an explicit `Nodup` hypothesis).
* Schema dictionaries produced by `SchemaExtractor.get_json_schema` become
  the inductive `Schema`.  The `path` entry of a schema dictionary is
  modelled as an `Option String` because the normalized form (and the
  `items` dictionary of an empty array) carries no `path` key.
* Python `==` on normalized schema dictionaries is structural equality of
  the normalized `Schema` values: normalization emits `properties` in
  sorted key order, so ordered association-list equality coincides with
  the order-insensitive Python `dict` equality on the normalized forms.
-/

namespace SchemaTool

/-- A JSON value as produced by the Python function `json.loads`: `Json.int` models
numbers parsed to Python `int` (integer literals), `Json.num` models numbers
parsed to Python `float` (non-integral literals); objects keep key insertion
order. -/
inductive Json where
  | null
  | bool (b : Bool)
  | int (n : Int)
  | num (q : Rat)
  | str (s : String)
  | arr (items : List Json)
  | obj (fields : List (String × Json))

/-- A schema dictionary as built by `SchemaExtractor.get_json_schema`:
`{"type": ..., "path": ...}` for scalars, `{"type": "array", "items": ...,
"path": ...}` for arrays, `{"type": "object", "properties": ...,
"required": ..., "path": ...}` for objects.  `path = none` models the
absence of the `"path"` key (as in normalized schemas and in the
`{"type": "unknown"}` items dictionary of an empty array). -/
inductive Schema where
  | snull (path : Option String)
  | sbool (path : Option String)
  | sint (path : Option String)
  | snum (path : Option String)
  | sstr (path : Option String)
  | sunknown (path : Option String)
  | sarr (items : Schema) (path : Option String)
  | sobj (props : List (String × Schema)) (required : List String) (path : Option String)

mutual

/-- Structural (deep) equality of schema dictionaries, as a boolean. -/
def beqSchema : Schema → Schema → Bool
  | .snull p, .snull q => decide (p = q)
  | .sbool p, .sbool q => decide (p = q)
  | .sint p, .sint q => decide (p = q)
  | .snum p, .snum q => decide (p = q)
  | .sstr p, .sstr q => decide (p = q)
  | .sunknown p, .sunknown q => decide (p = q)
  | .sarr i p, .sarr j q => beqSchema i j && decide (p = q)
  | .sobj ps r p, .sobj qs r2 q =>
      beqProps ps qs && decide (r = r2) && decide (p = q)
  | _, _ => false
termination_by structural s => s

def beqProps : List (String × Schema) → List (String × Schema) → Bool
  | [], [] => true
  | (k, v) :: t, (k2, v2) :: t2 => decide (k = k2) && beqSchema v v2 && beqProps t t2
  | _, _ => false
termination_by structural l => l

end

mutual

def beqSchema_iff : ∀ a b : Schema, beqSchema a b = true ↔ a = b
  | .snull p, b => by cases b <;> simp [beqSchema]
  | .sbool p, b => by cases b <;> simp [beqSchema]
  | .sint p, b => by cases b <;> simp [beqSchema]
  | .snum p, b => by cases b <;> simp [beqSchema]
  | .sstr p, b => by cases b <;> simp [beqSchema]
  | .sunknown p, b => by cases b <;> simp [beqSchema]
  | .sarr i p, b => by
      cases b <;> try (simp [beqSchema]; done)
      case sarr j q =>
        simp only [beqSchema, Bool.and_eq_true, decide_eq_true_eq, Schema.sarr.injEq]
        rw [beqSchema_iff i j]
  | .sobj ps r p, b => by
      cases b <;> try (simp [beqSchema]; done)
      case sobj qs r2 q =>
        simp only [beqSchema, Bool.and_eq_true, decide_eq_true_eq, Schema.sobj.injEq]
        rw [beqProps_iff ps qs]
        tauto
termination_by structural a => a

def beqProps_iff : ∀ l m : List (String × Schema), beqProps l m = true ↔ l = m
  | [], m => by cases m <;> simp [beqProps]
  | (k, v) :: t, m => by
      cases m with
      | nil => simp [beqProps]
      | cons h t2 =>
        obtain ⟨k2, v2⟩ := h
        simp only [beqProps, Bool.and_eq_true, decide_eq_true_eq,
          List.cons.injEq, Prod.mk.injEq]
        rw [beqSchema_iff v v2, beqProps_iff t t2]
termination_by structural l => l

end

instance : DecidableEq Schema := fun a b => decidable_of_iff _ (beqSchema_iff a b)

mutual

/-- The method `SchemaExtractor.get_json_schema`: recursively extract a schema from a
JSON value.  `None`, `bool`, `int`, `float` and `str` map to the scalar
schema types; a non-empty list maps to an array schema whose `items` is the
schema of the first element (inferred at path `path[0]`; the source scans
up to five elements but keeps only the first schema); an empty list maps to
an array schema with `items = {"type": "unknown"}`; a dict maps to an
object schema whose `required` list is the full key list. -/
def get_json_schema : Json → String → Schema
  | .null, path => .snull (some path)
  | .bool _, path => .sbool (some path)
  | .int _, path => .sint (some path)
  | .num _, path => .snum (some path)
  | .str _, path => .sstr (some path)
  | .arr [], path => .sarr (.sunknown none) (some path)
  | .arr (x :: _), path => .sarr (get_json_schema x (path ++ "[0]")) (some path)
  | .obj kvs, path => .sobj (inferProps kvs path) (kvs.map Prod.fst) (some path)
termination_by structural j => j

/-- The object branch of `get_json_schema`: one property entry per key,
each value inferred at path `path.key`. -/
def inferProps : List (String × Json) → String → List (String × Schema)
  | [], _ => []
  | (k, v) :: rest, path => (k, get_json_schema v (path ++ "." ++ k)) :: inferProps rest path
termination_by structural l => l

end

/-- Key-order on property entries: `sorted(v.items())` in the source sorts
the (distinct-keyed) entries of a `properties` dict by key. -/
def keyLe (a b : String × Schema) : Prop := a.1 ≤ b.1

instance : DecidableRel keyLe := fun a b => inferInstanceAs (Decidable (a.1 ≤ b.1))

instance : IsTotal (String × Schema) keyLe := ⟨fun a b => le_total a.1 b.1⟩

instance : IsTrans (String × Schema) keyLe := ⟨fun _ _ _ h h2 => le_trans h h2⟩

mutual

/-- The method `SchemaExtractor.normalize_schema_for_comparison`: drop every `path`
entry, sort `required`, and rebuild `properties` in sorted key order,
recursing into every sub-schema.  The source sorts the property entries
first and then normalizes each value; since normalization keeps every key,
sorting after normalizing the values (as here) yields the same list — this
reordering is proved as `normProps_insertionSort_comm` below. -/
def normalize_schema_for_comparison : Schema → Schema
  | .snull _ => .snull none
  | .sbool _ => .sbool none
  | .sint _ => .sint none
  | .snum _ => .snum none
  | .sstr _ => .sstr none
  | .sunknown _ => .sunknown none
  | .sarr items _ => .sarr (normalize_schema_for_comparison items) none
  | .sobj props req _ =>
      .sobj (List.insertionSort keyLe (normProps props))
        (List.insertionSort (· ≤ ·) req) none
termination_by structural s => s

def normProps : List (String × Schema) → List (String × Schema)
  | [] => []
  | (k, v) :: rest => (k, normalize_schema_for_comparison v) :: normProps rest
termination_by structural l => l

end

/-- The method `SchemaExtractor.schemas_equal`: deep equality of the two normalized
schemas (the source compares the normalized dicts with `==`). -/
def schemas_equal (schema1 schema2 : Schema) : Bool :=
  decide (normalize_schema_for_comparison schema1 = normalize_schema_for_comparison schema2)

/-- One value of the `self.schemas` registry dict:
`schema / count / sample_lines / first_seen`. -/
structure SchemaEntry where
  schema : Schema
  count : Nat
  sample_lines : List Nat
  first_seen : Nat
  deriving DecidableEq

/-- The registry `self.schemas`: a Python dict keyed by schema id, modelled
as an association list in insertion order. -/
abbrev Registry := List (String × SchemaEntry)

/-- The scan loop of `SchemaExtractor.add_schema`: find the first entry
whose stored schema is `schemas_equal` to the input, increment its count
and append the line number to its `sample_lines`, returning the updated
registry and the matched id; `none` when no entry matches. -/
def findUpdate (schema : Schema) (record_line : Nat) :
    Registry → Option (Registry × String)
  | [] => none
  | (id, e) :: rest =>
      if schemas_equal schema e.schema then
        some ((id, { e with count := e.count + 1,
                            sample_lines := e.sample_lines ++ [record_line] }) :: rest, id)
      else
        match findUpdate schema record_line rest with
        | some (rest2, found) => some ((id, e) :: rest2, found)
        | none => none

/-- The method `SchemaExtractor.add_schema`: dedup-insert one schema.  If an existing
entry is structurally equal, mutate it; otherwise append a new entry with
id `schema_{len+1}`, count 1, sample lines `[record_line]`. -/
def add_schema (reg : Registry) (schema : Schema) (record_line : Nat) :
    Registry × String :=
  match findUpdate schema record_line reg with
  | some r => r
  | none =>
      let id := "schema_" ++ toString (reg.length + 1)
      (reg ++ [(id, { schema := schema, count := 1,
                      sample_lines := [record_line], first_seen := record_line })], id)

/-- One element of `self.failed_records`:
`line_number / content / error`. -/
structure FailedRecord where
  line_number : Nat
  content : String
  error : String
  deriving DecidableEq

/-- One input line of `process_log_file` after `line.strip()` and
`json.loads`: blank (skipped), invalid (a `json.JSONDecodeError` with the
raw content and error text), or a parsed JSON record.  The JSON parser
itself is standard-library code; a line is modelled by its parse
outcome. -/
inductive LogLine where
  | blank
  | invalid (content : String) (error : String)
  | valid (record : Json)

/-- The mutable state of a `SchemaExtractor` during `process_log_file`. -/
structure ProcState where
  processed_count : Nat
  failed_count : Nat
  schemas : Registry
  failed_records : List FailedRecord

/-- One iteration of the `process_log_file` loop at line number `ln`:
blank lines are skipped; a valid record is inferred (at root path `root`)
and added to the registry; a failed line appends one `FailedRecord` and
increments the failure count. -/
def processLine (st : ProcState) (ln : Nat) : LogLine → ProcState
  | .blank => st
  | .valid record =>
      { st with
        schemas := (add_schema st.schemas (get_json_schema record "root") ln).1,
        processed_count := st.processed_count + 1 }
  | .invalid content err =>
      { st with
        failed_count := st.failed_count + 1,
        failed_records := st.failed_records ++ [⟨ln, content, err⟩] }

/-- The loop of `process_log_file` from state `st`, numbering lines from
`ln` (the source numbers lines starting at 1). -/
def processFrom (st : ProcState) (ln : Nat) : List LogLine → ProcState
  | [] => st
  | l :: rest => processFrom (processLine st ln l) (ln + 1) rest

/-- The method `SchemaExtractor.process_log_file` on a stream of lines, starting from
the freshly initialized extractor state. -/
def process_log_file (lines : List LogLine) : ProcState :=
  processFrom ⟨0, 0, [], []⟩ 1 lines

/-- The path join `parent_path + "." + prop_name if parent_path else prop_name`. -/
def joinPath (parent k : String) : String :=
  if parent = "" then k else parent ++ "." ++ k

/-- The `"type"` entry of a schema dictionary. -/
def typeName : Schema → String
  | .snull _ => "null"
  | .sbool _ => "boolean"
  | .sint _ => "integer"
  | .snum _ => "number"
  | .sstr _ => "string"
  | .sunknown _ => "unknown"
  | .sarr _ _ => "array"
  | .sobj _ _ _ => "object"

mutual

/-- The method `SchemaDiffAnalyzer.get_all_paths`: the set of all field paths of a
schema.  An object contributes `parent.key` for every property and recurses
into it; an array recurses into its `items` under `parent[]`; leaves
contribute nothing.  The source accumulates into a Python `set`; the result
is a `Finset`. -/
def get_all_paths : Schema → String → Finset String
  | .sobj props _ _, parent_path => pathsProps props parent_path
  | .sarr items _, parent_path => get_all_paths items (parent_path ++ "[]")
  | _, _ => ∅
termination_by structural s => s

def pathsProps : List (String × Schema) → String → Finset String
  | [], _ => ∅
  | (k, v) :: rest, parent_path =>
      insert (joinPath parent_path k) (get_all_paths v (joinPath parent_path k))
        ∪ pathsProps rest parent_path
termination_by structural l => l

end

/-- The Python method `str.startswith`: character-level prefix test (defined on the
character list so that it evaluates by kernel reduction). -/
def strStartsWith (s pre : String) : Bool :=
  pre.data.isPrefixOf s.data

/-- The Python slice `s[n:]`: drop the first `n` characters. -/
def strDrop (s : String) (n : Nat) : String :=
  String.mk (s.data.drop n)

/-- The `type / required / path` dict returned by
`SchemaDiffAnalyzer.get_field_info`. -/
structure FieldInfo where
  type : String
  required : Bool
  path : String
  deriving DecidableEq

mutual

/-- The method `SchemaDiffAnalyzer.get_field_info`: resolve a field path.  In an
object, scan the properties: an exact path match returns the descriptor
(`required` is membership of the key in the `required` list); when the
target strictly extends the property path by a `.`, recurse into that
property and return its result unconditionally.  In an array, when the
target starts with `current_path[]`, strip that prefix plus one further
character and recurse into `items` when a non-empty remainder is left.
Every other case returns `none`. -/
def get_field_info : Schema → String → String → Option FieldInfo
  | .sobj props req _, target_path, current_path =>
      fieldInfoProps props req target_path current_path
  | .sarr items _, target_path, current_path =>
      let array_path := current_path ++ "[]"
      if strStartsWith target_path array_path then
        let remaining_path := strDrop target_path (array_path.length + 1)
        if remaining_path ≠ "" then
          get_field_info items remaining_path array_path
        else none
      else none
  | _, _, _ => none
termination_by structural s => s

def fieldInfoProps :
    List (String × Schema) → List String → String → String → Option FieldInfo
  | [], _, _, _ => none
  | (k, sub) :: rest, req, target_path, current_path =>
      let field_path := joinPath current_path k
      if field_path = target_path then
        some { type := typeName sub, required := decide (k ∈ req), path := field_path }
      else if strStartsWith target_path (field_path ++ ".") then
        get_field_info sub target_path field_path
      else
        fieldInfoProps rest req target_path current_path
termination_by structural l => l

end

/-- One element of the `type_differences` list of
`SchemaDiffAnalyzer.compare_schemas`: either a type mismatch record or a
`required_status` record. -/
inductive TypeDiff where
  | typeDiff (path baseline_type comparison_type : String)
  | reqDiff (path : String) (baseline_required comparison_required : Bool)
  deriving DecidableEq

/-- The common-paths loop of `compare_schemas`: for each path resolve the
descriptor in both schemas; when both resolve, record a type difference if
the types disagree, else a requiredness difference if `required` disagrees;
when either resolution fails the path is silently skipped. -/
def collectDiffs (schema1 schema2 : Schema) : List String → List TypeDiff
  | [] => []
  | p :: rest =>
      (match get_field_info schema1 p "", get_field_info schema2 p "" with
       | some i1, some i2 =>
           if i1.type ≠ i2.type then [.typeDiff p i1.type i2.type]
           else if i1.required ≠ i2.required then [.reqDiff p i1.required i2.required]
           else []
       | _, _ => []) ++ collectDiffs schema1 schema2 rest

/-- The result dict of `SchemaDiffAnalyzer.compare_schemas`. -/
structure DiffResult where
  missing_fields : List String
  additional_fields : List String
  type_differences : List TypeDiff
  total_baseline_fields : Nat
  total_comparison_fields : Nat
  common_fields : Nat
  deriving DecidableEq

/-- Paths of a `Finset` in sorted order (`sorted(list(...))` in the source;
the source iterates `common_paths` in unspecified Python-set order, which
is determinized here to sorted order — the claims below only depend on the
members of `type_differences`, never on their order). -/
def sortPaths (s : Finset String) : List String :=
  s.sort (· ≤ ·)

/-- The method `SchemaDiffAnalyzer.compare_schemas`. -/
def compare_schemas (schema1 schema2 : Schema) : DiffResult :=
  let baseline_paths := get_all_paths schema1 ""
  let comparison_paths := get_all_paths schema2 ""
  { missing_fields := sortPaths (baseline_paths \ comparison_paths)
    additional_fields := sortPaths (comparison_paths \ baseline_paths)
    type_differences :=
      collectDiffs schema1 schema2 (sortPaths (baseline_paths ∩ comparison_paths))
    total_baseline_fields := baseline_paths.card
    total_comparison_fields := comparison_paths.card
    common_fields := (baseline_paths ∩ comparison_paths).card }

mutual

/-- The §3 invariant of inferred schemas: at every object node the
`required` list is exactly the key list of `properties`, recursively. -/
def requiredAllKeys : Schema → Prop
  | .sarr items _ => requiredAllKeys items
  | .sobj props req _ => req = props.map Prod.fst ∧ requiredAllKeysProps props
  | _ => True
termination_by structural s => s

def requiredAllKeysProps : List (String × Schema) → Prop
  | [] => True
  | (_, v) :: rest => requiredAllKeys v ∧ requiredAllKeysProps rest
termination_by structural l => l

end

/-- The report slice `sample_lines[:5]`, the slice of the sample lines of an entry shown by
`print_summary` and `save_summary_report`. -/
def reportedSampleLines (e : SchemaEntry) : List Nat :=
  e.sample_lines.take 5

/-- Feeding a whole stream of (schema, line-number) records through
`add_schema`, starting from the empty registry of a fresh extractor. -/
def addAll (items : List (Schema × Nat)) : Registry :=
  items.foldl (fun reg x => (add_schema reg x.1 x.2).1) []

/-- The failed-record list that a stream produces: one record per
non-blank, non-parsing line, carrying its 1-based line number, raw content
and error text. -/
def failuresFrom (ln : Nat) : List LogLine → List FailedRecord
  | [] => []
  | .invalid c e :: rest => ⟨ln, c, e⟩ :: failuresFrom (ln + 1) rest
  | .blank :: rest => failuresFrom (ln + 1) rest
  | .valid _ :: rest => failuresFrom (ln + 1) rest

/-- The number of successfully parsed records in a stream. -/
def countValid : List LogLine → Nat
  | [] => 0
  | .valid _ :: rest => countValid rest + 1
  | _ :: rest => countValid rest

/-- The number of failing lines in a stream. -/
def countInvalid : List LogLine → Nat
  | [] => 0
  | .invalid _ _ :: rest => countInvalid rest + 1
  | _ :: rest => countInvalid rest

/-! ### Helper lemmas -/

theorem collectDiffs_self (s : Schema) :
    ∀ ps : List String, collectDiffs s s ps = []
  | [] => rfl
  | p :: rest => by
      rw [collectDiffs]
      rw [collectDiffs_self s rest]
      cases get_field_info s p "" <;> simp

theorem findUpdate_some_length (schema : Schema) (ln : Nat) :
    ∀ (reg r : Registry) (id : String),
      findUpdate schema ln reg = some (r, id) → r.length = reg.length := by
  intro reg
  induction reg with
  | nil => intro r id h; simp [findUpdate] at h
  | cons p rest ih =>
    obtain ⟨pid, e⟩ := p
    intro r id h
    rw [findUpdate] at h
    by_cases heq : schemas_equal schema e.schema
    · rw [if_pos heq] at h
      obtain ⟨h1, -⟩ := Prod.mk.injEq .. ▸ Option.some.injEq .. ▸ h
      subst h1
      simp
    · rw [if_neg heq] at h
      cases hfu : findUpdate schema ln rest with
      | none => rw [hfu] at h; exact absurd h (by simp)
      | some pr =>
        obtain ⟨r2, id2⟩ := pr
        rw [hfu] at h
        obtain ⟨h1, -⟩ := Prod.mk.injEq .. ▸ Option.some.injEq .. ▸ h
        subst h1
        simpa using ih r2 id2 hfu

theorem findUpdate_isSome (schema : Schema) (ln : Nat) :
    ∀ reg : Registry, (∃ p ∈ reg, schemas_equal schema p.2.schema = true) →
      (findUpdate schema ln reg).isSome := by
  intro reg
  induction reg with
  | nil => rintro ⟨p, hp, -⟩; exact absurd hp (List.not_mem_nil p)
  | cons q rest ih =>
    obtain ⟨qid, e⟩ := q
    rintro ⟨p, hp, heq⟩
    rw [findUpdate]
    by_cases he : schemas_equal schema e.schema
    · rw [if_pos he]; rfl
    · rw [if_neg he]
      rcases List.mem_cons.mp hp with h | h
      · subst h; exact absurd heq he
      · have := ih ⟨p, h, heq⟩
        cases hfu : findUpdate schema ln rest with
        | none => rw [hfu] at this; exact absurd this (by simp)
        | some pr => cases pr; rfl

theorem addSchema_equal_same_length (reg : Registry) (s : Schema) (ln : Nat)
    (h : ∃ p ∈ reg, schemas_equal s p.2.schema = true) :
    ((add_schema reg s ln).1).length = reg.length := by
  have hs := findUpdate_isSome s ln reg h
  rw [add_schema]
  cases hfu : findUpdate s ln reg with
  | none => rw [hfu] at hs; exact absurd hs (by simp)
  | some pr =>
    obtain ⟨r, id⟩ := pr
    exact findUpdate_some_length s ln reg r id hfu

theorem addAll_equal_single :
    ∀ (rest : List (Schema × Nat)) (id : String) (e : SchemaEntry),
      (∀ x ∈ rest, normalize_schema_for_comparison x.1
         = normalize_schema_for_comparison e.schema) →
      List.foldl (fun reg x => (add_schema reg x.1 x.2).1) [(id, e)] rest
        = [(id, { schema := e.schema, count := e.count + rest.length,
                  sample_lines := e.sample_lines ++ rest.map Prod.snd,
                  first_seen := e.first_seen })] := by
  intro rest
  induction rest with
  | nil => intro id e _; simp
  | cons x t ih =>
    obtain ⟨s, ln⟩ := x
    intro id e hall
    have heq : schemas_equal s e.schema = true := by
      simp only [schemas_equal, decide_eq_true_eq]
      exact hall (s, ln) (List.mem_cons_self _ _)
    have hstep : (add_schema [(id, e)] s ln).1
        = [(id, { e with count := e.count + 1,
                         sample_lines := e.sample_lines ++ [ln] })] := by
      rw [add_schema, findUpdate, if_pos heq]
    rw [List.foldl_cons, hstep,
      ih id { schema := e.schema, count := e.count + 1,
              sample_lines := e.sample_lines ++ [ln], first_seen := e.first_seen }
        (fun y hy => hall y (List.mem_cons_of_mem _ hy))]
    simp [List.length_cons]
    omega

theorem findUpdate_count_invariant (s : Schema) (ln : Nat) :
    ∀ (reg r : Registry) (id : String),
      findUpdate s ln reg = some (r, id) →
      (∀ p ∈ reg, p.2.count = p.2.sample_lines.length) →
      ∀ p ∈ r, p.2.count = p.2.sample_lines.length := by
  intro reg
  induction reg with
  | nil => intro r id h; simp [findUpdate] at h
  | cons q rest ih =>
    obtain ⟨qid, e⟩ := q
    intro r id h hreg p hp
    rw [findUpdate] at h
    by_cases heq : schemas_equal s e.schema
    · rw [if_pos heq] at h
      obtain ⟨h1, -⟩ := Prod.mk.injEq .. ▸ Option.some.injEq .. ▸ h
      subst h1
      rcases List.mem_cons.mp hp with rfl | hmem
      · have := hreg (qid, e) (List.mem_cons_self _ _)
        simp at this ⊢
        omega
      · exact hreg p (List.mem_cons_of_mem _ hmem)
    · rw [if_neg heq] at h
      cases hfu : findUpdate s ln rest with
      | none => rw [hfu] at h; exact absurd h (by simp)
      | some pr =>
        obtain ⟨r2, id2⟩ := pr
        rw [hfu] at h
        obtain ⟨h1, -⟩ := Prod.mk.injEq .. ▸ Option.some.injEq .. ▸ h
        subst h1
        rcases List.mem_cons.mp hp with rfl | hmem
        · exact hreg _ (List.mem_cons_self _ _)
        · exact ih r2 id2 hfu (fun q hq => hreg q (List.mem_cons_of_mem _ hq)) p hmem

theorem addAll_count_invariant :
    ∀ (items : List (Schema × Nat)) (reg : Registry),
      (∀ p ∈ reg, p.2.count = p.2.sample_lines.length) →
      ∀ p ∈ items.foldl (fun r x => (add_schema r x.1 x.2).1) reg,
        p.2.count = p.2.sample_lines.length := by
  intro items
  induction items with
  | nil => intro reg hreg p hp; exact hreg p hp
  | cons x t ih =>
    obtain ⟨s, ln⟩ := x
    intro reg hreg
    rw [List.foldl_cons]
    refine ih _ ?_
    intro p hp
    rw [add_schema] at hp
    cases hfu : findUpdate s ln reg with
    | none =>
      rw [hfu] at hp
      simp only at hp
      rcases List.mem_append.mp hp with h | h
      · exact hreg p h
      · rcases List.mem_singleton.mp h with rfl
        rfl
    | some pr =>
      obtain ⟨r, id⟩ := pr
      rw [hfu] at hp
      exact findUpdate_count_invariant s ln reg r id hfu hreg p hp

theorem inferProps_eq_map :
    ∀ (l : List (String × Json)) (p : String),
      inferProps l p
        = l.map (fun kv => (kv.1, get_json_schema kv.2 (p ++ "." ++ kv.1)))
  | [], _ => rfl
  | (k, v) :: rest, p => by rw [inferProps, inferProps_eq_map rest p, List.map_cons]

theorem inferProps_keys (l : List (String × Json)) (p : String) :
    (inferProps l p).map Prod.fst = l.map Prod.fst := by
  rw [inferProps_eq_map, List.map_map]
  rfl


mutual

theorem infer_requiredAllKeys :
    ∀ (j : Json) (p : String), requiredAllKeys (get_json_schema j p)
  | .null, _ => trivial
  | .bool _, _ => trivial
  | .int _, _ => trivial
  | .num _, _ => trivial
  | .str _, _ => trivial
  | .arr [], _ => trivial
  | .arr (x :: _), p => infer_requiredAllKeys x (p ++ "[0]")
  | .obj kvs, p => ⟨(inferProps_keys kvs p).symm, infer_requiredAllKeysProps kvs p⟩
termination_by structural j => j

theorem infer_requiredAllKeysProps :
    ∀ (l : List (String × Json)) (p : String), requiredAllKeysProps (inferProps l p)
  | [], _ => trivial
  | (k, v) :: rest, p =>
      ⟨infer_requiredAllKeys v (p ++ "." ++ k), infer_requiredAllKeysProps rest p⟩
termination_by structural l => l

end

mutual

theorem get_field_info_required :
    ∀ s : Schema, requiredAllKeys s →
      ∀ (target cur : String) (info : FieldInfo),
        get_field_info s target cur = some info → info.required = true
  | .snull _, _, target, cur, info, h => by simp [get_field_info] at h
  | .sbool _, _, target, cur, info, h => by simp [get_field_info] at h
  | .sint _, _, target, cur, info, h => by simp [get_field_info] at h
  | .snum _, _, target, cur, info, h => by simp [get_field_info] at h
  | .sstr _, _, target, cur, info, h => by simp [get_field_info] at h
  | .sunknown _, _, target, cur, info, h => by simp [get_field_info] at h
  | .sarr items _, hreq, target, cur, info, h => by
      simp only [get_field_info] at h
      split at h
      · split at h
        · exact get_field_info_required items hreq _ _ info h
        · exact absurd h (by simp)
      · exact absurd h (by simp)
  | .sobj props req _, hreq, target, cur, info, h =>
      fieldInfoProps_required props req target cur
        (fun k hk => hreq.1 ▸ hk) hreq.2 info h
termination_by structural s => s

theorem fieldInfoProps_required :
    ∀ (props : List (String × Schema)) (req : List String) (target cur : String),
      (∀ k ∈ props.map Prod.fst, k ∈ req) → requiredAllKeysProps props →
      ∀ info : FieldInfo,
        fieldInfoProps props req target cur = some info → info.required = true
  | [], _, _, _, _, _, info, h => by simp [fieldInfoProps] at h
  | (k, sub) :: rest, req, target, cur, hsub, hall, info, h => by
      simp only [fieldInfoProps] at h
      split at h
      · obtain rfl := (Option.some.injEq .. ▸ h)
        have hk : k ∈ req :=
          hsub k (List.mem_map_of_mem Prod.fst (List.mem_cons_self _ _))
        simp [hk]
      · split at h
        · exact get_field_info_required sub hall.1 _ _ info h
        · exact fieldInfoProps_required rest req target cur
            (fun x hx => hsub x (by simp at hx ⊢; right; exact hx)) hall.2 info h
termination_by structural l => l

end

theorem collectDiffs_no_reqDiff (a b : Schema)
    (ha : requiredAllKeys a) (hb : requiredAllKeys b) :
    ∀ (ps : List String) (d : TypeDiff), d ∈ collectDiffs a b ps →
      ∃ pth bt ct, d = TypeDiff.typeDiff pth bt ct
  | [], d, hd => absurd hd (List.not_mem_nil d)
  | p :: rest, d, hd => by
      rw [collectDiffs] at hd
      rcases List.mem_append.mp hd with h | h
      · cases h1 : get_field_info a p "" with
        | none => rw [h1] at h; simp at h
        | some i1 =>
          cases h2 : get_field_info b p "" with
          | none => rw [h1, h2] at h; simp at h
          | some i2 =>
            rw [h1, h2] at h
            simp only [] at h
            by_cases ht : i1.type ≠ i2.type
            · rw [if_pos ht] at h
              exact ⟨p, i1.type, i2.type, List.mem_singleton.mp h⟩
            · rw [if_neg ht] at h
              have e1 : i1.required = true := get_field_info_required a ha p "" i1 h1
              have e2 : i2.required = true := get_field_info_required b hb p "" i2 h2
              rw [if_neg (by rw [e1, e2]; exact fun hc => hc rfl)] at h
              exact absurd h (List.not_mem_nil d)
      · exact collectDiffs_no_reqDiff a b ha hb rest d h

theorem processFrom_spec :
    ∀ (ls : List LogLine) (st : ProcState) (ln : Nat),
      (processFrom st ln ls).failed_records = st.failed_records ++ failuresFrom ln ls ∧
      (processFrom st ln ls).processed_count = st.processed_count + countValid ls ∧
      (processFrom st ln ls).failed_count = st.failed_count + countInvalid ls := by
  intro ls
  induction ls with
  | nil => intro st ln; simp [processFrom, failuresFrom, countValid, countInvalid]
  | cons l rest ih =>
    intro st ln
    cases l with
    | blank =>
      simpa [processFrom, processLine, failuresFrom, countValid, countInvalid]
        using ih st (ln + 1)
    | valid record =>
      obtain ⟨h1, h2, h3⟩ := ih (processLine st ln (.valid record)) (ln + 1)
      refine ⟨?_, ?_, ?_⟩
      · rw [processFrom, h1]
        simp [processLine, failuresFrom]
      · rw [processFrom, h2]
        simp [processLine, countValid]
        try omega
      · rw [processFrom, h3]
        simp [processLine, countInvalid]
        try omega
    | invalid c e =>
      obtain ⟨h1, h2, h3⟩ := ih (processLine st ln (.invalid c e)) (ln + 1)
      refine ⟨?_, ?_, ?_⟩
      · rw [processFrom, h1]
        simp [processLine, failuresFrom]
      · rw [processFrom, h2]
        simp [processLine, countValid]
        try omega
      · rw [processFrom, h3]
        simp [processLine, countInvalid]
        try omega

/-! ### Claims -/

/-- Claim C9: every failing line appends exactly one failed record carrying
its 1-based line number, raw content and error text, every parsed line is
processed, and processing never aborts; in particular a 10-line stream
whose only bad line is line 5 yields 9 processed records and that single
failed record. -/
theorem streaming_partial_failure_tolerance :
    (∀ lines : List LogLine,
        (process_log_file lines).failed_records = failuresFrom 1 lines ∧
        (process_log_file lines).processed_count = countValid lines ∧
        (process_log_file lines).failed_count = countInvalid lines) ∧
    ((process_log_file
        [.valid .null, .valid .null, .valid .null, .valid .null,
         .invalid "not json" "Expecting value", .valid .null, .valid .null,
         .valid .null, .valid .null, .valid .null]).processed_count = 9 ∧
     (process_log_file
        [.valid .null, .valid .null, .valid .null, .valid .null,
         .invalid "not json" "Expecting value", .valid .null, .valid .null,
         .valid .null, .valid .null, .valid .null]).failed_count = 1 ∧
     (process_log_file
        [.valid .null, .valid .null, .valid .null, .valid .null,
         .invalid "not json" "Expecting value", .valid .null, .valid .null,
         .valid .null, .valid .null, .valid .null]).failed_records
       = [⟨5, "not json", "Expecting value"⟩]) := by
  constructor
  · intro lines
    simpa [process_log_file] using processFrom_spec lines ⟨0, 0, [], []⟩ 1
  · refine ⟨by decide, by decide, by decide⟩

/-- Claim C3: feeding `n` structurally equal schemas into a fresh registry
yields exactly one entry (with id `schema_1`) whose count is `n`; moreover
`add_schema` never creates a second entry when the incoming schema is
`schemas_equal` to some stored entry. -/
theorem dedup_correctness :
    (∀ (items : List (Schema × Nat)) (s0 : Schema),
        items ≠ [] →
        (∀ x ∈ items, normalize_schema_for_comparison x.1
            = normalize_schema_for_comparison s0) →
        ∃ e : SchemaEntry, addAll items = [("schema_1", e)] ∧ e.count = items.length) ∧
    (∀ (reg : Registry) (s : Schema) (ln : Nat),
        (∃ p ∈ reg, schemas_equal s p.2.schema = true) →
        ((add_schema reg s ln).1).length = reg.length) := by
  constructor
  · intro items s0 hne hall
    match items with
    | [] => exact absurd rfl hne
    | (s, ln) :: t =>
      have hfirst : (add_schema [] s ln).1
          = [("schema_1", { schema := s, count := 1,
                            sample_lines := [ln], first_seen := ln })] := by
        rw [add_schema, findUpdate]
        rfl
      have hs0 : normalize_schema_for_comparison s = normalize_schema_for_comparison s0 :=
        hall (s, ln) (List.mem_cons_self _ _)
      have ht : ∀ x ∈ t, normalize_schema_for_comparison x.1
          = normalize_schema_for_comparison
              ({ schema := s, count := 1, sample_lines := [ln],
                 first_seen := ln } : SchemaEntry).schema := by
        intro x hx
        rw [hall x (List.mem_cons_of_mem _ hx)]
        exact hs0.symm
      have hfold : addAll ((s, ln) :: t)
          = List.foldl (fun reg x => (add_schema reg x.1 x.2).1)
              ((add_schema [] s ln).1) t := by
        simp [addAll]
      refine ⟨{ schema := s, count := 1 + t.length,
                sample_lines := [ln] ++ t.map Prod.snd, first_seen := ln }, ?_, ?_⟩
      · rw [hfold, hfirst, addAll_equal_single t "schema_1" _ ht]
      · simp [Nat.add_comm]
  · exact fun reg s ln h => addSchema_equal_same_length reg s ln h

/-- Witness for C3 at a concrete input: three records whose schemas all
canonicalize to a null schema collapse to the single entry `schema_1` with
count 3, and re-adding an equal schema leaves the registry size at 1. -/
theorem dedup_correctness_witness :
    (([(Schema.snull (some "root"), 1), (Schema.snull (some "x"), 2),
       (Schema.snull none, 3)] : List (Schema × Nat)) ≠ []) ∧
    (∀ x ∈ ([(Schema.snull (some "root"), 1), (Schema.snull (some "x"), 2),
             (Schema.snull none, 3)] : List (Schema × Nat)),
        normalize_schema_for_comparison x.1
          = normalize_schema_for_comparison (Schema.snull none)) ∧
    (∃ e : SchemaEntry,
        addAll [(Schema.snull (some "root"), 1), (Schema.snull (some "x"), 2),
                (Schema.snull none, 3)] = [("schema_1", e)] ∧ e.count = 3) ∧
    (∃ p ∈ ([("schema_1",
               ({ schema := Schema.snull none, count := 1, sample_lines := [1],
                  first_seen := 1 } : SchemaEntry))] : Registry),
        schemas_equal (Schema.snull (some "z")) p.2.schema = true) ∧
    ((add_schema [("schema_1",
        ({ schema := Schema.snull none, count := 1, sample_lines := [1],
           first_seen := 1 } : SchemaEntry))] (Schema.snull (some "z")) 9).1).length
      = 1 :=
  ⟨by decide, by decide,
   dedup_correctness.1 _ (Schema.snull none) (by decide) (by decide),
   by decide,
   dedup_correctness.2 _ (Schema.snull (some "z")) 9 (by decide)⟩

/-- Counterexample for C2 as stated: after six structural matches the
stored entry retains all six line numbers, so the in-registry sample-line
buffer is not bounded by the first five. -/
theorem bounded_sample_lines_cex :
    ((addAll [(Schema.snull none, 1), (Schema.snull none, 2), (Schema.snull none, 3),
              (Schema.snull none, 4), (Schema.snull none, 5),
              (Schema.snull none, 6)]).all
        (fun p => decide (p.2.sample_lines.length ≤ 5))) = false := by
  decide

/-- Claim C2 (amended): a structural match appends its line number to the
`sample_lines` list of the entry without bound, so `count` — the true total of
structural matches — always equals the length of `sample_lines`; only the
report slice `sample_lines[:5]` is bounded by five. -/
theorem sample_lines_track_all_matches :
    ∀ (items : List (Schema × Nat)) (p : String × SchemaEntry),
      p ∈ addAll items →
      p.2.count = p.2.sample_lines.length ∧ (reportedSampleLines p.2).length ≤ 5 := by
  intro items p hp
  refine ⟨addAll_count_invariant items [] (by simp) p hp, ?_⟩
  exact List.length_take_le 5 p.2.sample_lines

/-- Witness for C2 (amended) at a concrete input. -/
theorem sample_lines_track_all_matches_witness :
    (("schema_1", ({ schema := Schema.snull none, count := 1, sample_lines := [7],
                     first_seen := 7 } : SchemaEntry))
        ∈ addAll [(Schema.snull none, 7)]) ∧
    (({ schema := Schema.snull none, count := 1, sample_lines := [7],
        first_seen := 7 } : SchemaEntry).count
        = ({ schema := Schema.snull none, count := 1, sample_lines := [7],
             first_seen := 7 } : SchemaEntry).sample_lines.length ∧
     (reportedSampleLines { schema := Schema.snull none, count := 1, sample_lines := [7], first_seen := 7 }).length ≤ 5) :=
  ⟨by decide,
   sample_lines_track_all_matches [(Schema.snull none, 7)]
     ("schema_1", { schema := Schema.snull none, count := 1, sample_lines := [7], first_seen := 7 })
     (by decide)⟩

theorem normProps_eq_map :
    ∀ l : List (String × Schema),
      normProps l = l.map (fun kv => (kv.1, normalize_schema_for_comparison kv.2))
  | [] => rfl
  | (k, v) :: rest => by rw [normProps, normProps_eq_map rest]; rfl

theorem normProps_insertionSort_comm (l : List (String × Schema)) :
    normProps (List.insertionSort keyLe l) = List.insertionSort keyLe (normProps l) := by
  rw [normProps_eq_map, normProps_eq_map]
  exact List.map_insertionSort keyLe keyLe _ l (fun a _ b _ => Iff.rfl)

theorem normProps_keys (l : List (String × Schema)) :
    (normProps l).map Prod.fst = l.map Prod.fst := by
  rw [normProps_eq_map, List.map_map]
  rfl

theorem insertionSort_keyLe_idem (l : List (String × Schema)) :
    List.insertionSort keyLe (List.insertionSort keyLe l)
      = List.insertionSort keyLe l :=
  (List.sorted_insertionSort keyLe l).insertionSort_eq

theorem insertionSort_str_idem (l : List String) :
    List.insertionSort (· ≤ ·) (List.insertionSort (· ≤ ·) l)
      = List.insertionSort (· ≤ ·) l :=
  (List.sorted_insertionSort (· ≤ ·) l).insertionSort_eq

mutual

theorem norm_idem_aux :
    ∀ s : Schema,
      normalize_schema_for_comparison (normalize_schema_for_comparison s)
        = normalize_schema_for_comparison s
  | .snull _ => rfl
  | .sbool _ => rfl
  | .sint _ => rfl
  | .snum _ => rfl
  | .sstr _ => rfl
  | .sunknown _ => rfl
  | .sarr items _ => by
      simp only [normalize_schema_for_comparison]
      rw [norm_idem_aux items]
  | .sobj props req _ => by
      simp only [normalize_schema_for_comparison]
      rw [normProps_insertionSort_comm, normProps_idem_aux props,
        insertionSort_keyLe_idem, insertionSort_str_idem]
termination_by structural s => s

theorem normProps_idem_aux :
    ∀ l : List (String × Schema), normProps (normProps l) = normProps l
  | [] => rfl
  | (k, v) :: rest => by
      rw [normProps, normProps, norm_idem_aux v, normProps_idem_aux rest]
termination_by structural l => l

end

/-- Claim C5: `normalize_schema_for_comparison` (the canonicalizer) is
idempotent. -/
theorem canonicalize_idempotent (x : Schema) :
    normalize_schema_for_comparison (normalize_schema_for_comparison x)
      = normalize_schema_for_comparison x :=
  norm_idem_aux x

theorem eq_of_perm_sortedKeys :
    ∀ l m : List (String × Schema), l.Perm m →
      l.Pairwise keyLe → m.Pairwise keyLe → (l.map Prod.fst).Nodup → l = m
  | [], m, hp, _, _, _ => (hp.symm.eq_nil).symm
  | a :: t, m, hp, hl, hm, hnd => by
      cases m with
      | nil => exact absurd hp.eq_nil (by simp)
      | cons b u =>
        have hndc : a.1 ∉ t.map Prod.fst ∧ (t.map Prod.fst).Nodup :=
          List.nodup_cons.mp (by simpa using hnd)
        have hab : a = b := by
          rcases List.mem_cons.mp (hp.symm.subset (List.mem_cons_self b u)) with h | hbt
          · exact h.symm
          · have h1 : keyLe a b := (List.pairwise_cons.mp hl).1 b hbt
            rcases List.mem_cons.mp (hp.subset (List.mem_cons_self a t)) with h | hau
            · exact h
            · have h2 : keyLe b a := (List.pairwise_cons.mp hm).1 a hau
              have hk : a.1 = b.1 := le_antisymm h1 h2
              exact absurd (hk ▸ List.mem_map_of_mem Prod.fst hbt) hndc.1
        subst hab
        rw [eq_of_perm_sortedKeys t u hp.cons_inv
          (List.pairwise_cons.mp hl).2 (List.pairwise_cons.mp hm).2 hndc.2]
termination_by structural l => l

/-- Claim C4: inferring the same JSON object with its (distinct) keys in
any permuted insertion order yields schemas that are `schemas_equal`: their
canonical forms coincide. -/
theorem infer_order_independence :
    ∀ (l m : List (String × Json)) (p : String),
      l.Perm m → (l.map Prod.fst).Nodup →
      schemas_equal (get_json_schema (Json.obj l) p)
        (get_json_schema (Json.obj m) p) = true := by
  intro l m p hp hnd
  rw [schemas_equal, decide_eq_true_eq]
  show normalize_schema_for_comparison
      (.sobj (inferProps l p) (l.map Prod.fst) (some p))
    = normalize_schema_for_comparison
      (.sobj (inferProps m p) (m.map Prod.fst) (some p))
  simp only [normalize_schema_for_comparison]
  have hreq : List.insertionSort (· ≤ ·) (l.map Prod.fst)
      = List.insertionSort (· ≤ ·) (m.map Prod.fst) :=
    List.eq_of_perm_of_sorted
      ((List.perm_insertionSort _ _).trans
        ((hp.map Prod.fst).trans (List.perm_insertionSort _ _).symm))
      (List.sorted_insertionSort _ _) (List.sorted_insertionSort _ _)
  have hpermN : (normProps (inferProps l p)).Perm (normProps (inferProps m p)) := by
    rw [normProps_eq_map, normProps_eq_map, inferProps_eq_map, inferProps_eq_map]
    exact (hp.map _).map _
  have hkeysN : ((List.insertionSort keyLe (normProps (inferProps l p))).map
      Prod.fst).Nodup := by
    have hpk : ((List.insertionSort keyLe (normProps (inferProps l p))).map
        Prod.fst).Perm (l.map Prod.fst) := by
      have := (List.perm_insertionSort keyLe (normProps (inferProps l p))).map Prod.fst
      rwa [normProps_keys, inferProps_keys] at this
    exact hpk.nodup_iff.mpr hnd
  have hprops : List.insertionSort keyLe (normProps (inferProps l p))
      = List.insertionSort keyLe (normProps (inferProps m p)) :=
    eq_of_perm_sortedKeys _ _
      ((List.perm_insertionSort _ _).trans
        (hpermN.trans (List.perm_insertionSort _ _).symm))
      (List.sorted_insertionSort keyLe _) (List.sorted_insertionSort keyLe _)
      hkeysN
  rw [hreq, hprops]

/-- Witness for C4 at a concrete input: the object with fields `a: 1`,
`b: "x"` inferred in both key orders. -/
theorem infer_order_independence_witness :
    (([("a", Json.int 1), ("b", Json.str "x")] : List (String × Json)).Perm
        [("b", Json.str "x"), ("a", Json.int 1)]) ∧
    ((([("a", Json.int 1), ("b", Json.str "x")] : List (String × Json)).map
        Prod.fst).Nodup) ∧
    schemas_equal
      (get_json_schema (Json.obj [("a", Json.int 1), ("b", Json.str "x")]) "root")
      (get_json_schema (Json.obj [("b", Json.str "x"), ("a", Json.int 1)]) "root")
      = true :=
  have hp := List.Perm.swap ("b", Json.str "x") ("a", Json.int 1) []
  ⟨hp, by decide, infer_order_independence _ _ "root" hp (by decide)⟩

/-- Counterexample for C10 as stated: between two inferencer-produced
schemas (here twice the schema of an object holding one array of objects),
the common path `b[].c` does not resolve at all — `get_field_info` returns
`None` on every path that crosses an array `[]` segment — so not every
common path resolves as required in both schemas. -/
theorem common_path_required_resolution_cex :
    ("b[].c" ∈ get_all_paths
        (get_json_schema (Json.obj [("b", Json.arr [Json.obj [("c", Json.int 1)]])])
          "root") ""
        ∩ get_all_paths
        (get_json_schema (Json.obj [("b", Json.arr [Json.obj [("c", Json.int 1)]])])
          "root") "") ∧
    get_field_info
        (get_json_schema (Json.obj [("b", Json.arr [Json.obj [("c", Json.int 1)]])])
          "root") "b[].c" "" = none :=
  ⟨by decide, by decide⟩

/-- Claim C10 (amended): every object node of an inferencer-produced schema
has `required` equal to the full key list of its properties; consequently
whenever `get_field_info` resolves a path in such a schema the resulting
descriptor has `required = true`, and `compare_schemas` between two
inferencer-produced schemas never records a `required_status` difference —
its `type_differences` contains only type-mismatch records. -/
theorem required_always_full_key_set :
    (∀ (j : Json) (p : String), requiredAllKeys (get_json_schema j p)) ∧
    (∀ (j : Json) (p target cur : String) (info : FieldInfo),
        get_field_info (get_json_schema j p) target cur = some info →
        info.required = true) ∧
    (∀ (a b : Json) (pa pb : String) (d : TypeDiff),
        d ∈ (compare_schemas (get_json_schema a pa)
              (get_json_schema b pb)).type_differences →
        ∃ pth bt ct, d = TypeDiff.typeDiff pth bt ct) :=
  ⟨infer_requiredAllKeys,
   fun j p target cur info h =>
     get_field_info_required _ (infer_requiredAllKeys j p) target cur info h,
   fun a b pa pb d hd =>
     collectDiffs_no_reqDiff _ _ (infer_requiredAllKeys a pa)
       (infer_requiredAllKeys b pb) _ d hd⟩

/-- Witness for C10 (amended) at concrete inputs: a resolved descriptor
with `required = true`, and a recorded difference between `a: 1` and
`a: "x"` that is a type-mismatch record. -/
theorem required_always_full_key_set_witness :
    (get_field_info (get_json_schema (Json.obj [("a", Json.int 1)]) "root") "a" ""
        = some { type := "integer", required := true, path := "a" } ∧
      ({ type := "integer", required := true, path := "a" } : FieldInfo).required
        = true) ∧
    (TypeDiff.typeDiff "a" "integer" "string"
        ∈ (compare_schemas (get_json_schema (Json.obj [("a", Json.int 1)]) "root")
            (get_json_schema (Json.obj [("a", Json.str "x")]) "root")).type_differences ∧
      ∃ pth bt ct, TypeDiff.typeDiff "a" "integer" "string"
        = TypeDiff.typeDiff pth bt ct) := by
  have hmem : TypeDiff.typeDiff "a" "integer" "string"
      ∈ (compare_schemas (get_json_schema (Json.obj [("a", Json.int 1)]) "root")
          (get_json_schema (Json.obj [("a", Json.str "x")]) "root")).type_differences := by
    have hcap : get_all_paths (get_json_schema (Json.obj [("a", Json.int 1)]) "root") ""
        ∩ get_all_paths (get_json_schema (Json.obj [("a", Json.str "x")]) "root") ""
        = {"a"} := by decide
    have hsort : sortPaths ({"a"} : Finset String) = ["a"] :=
      Finset.sort_singleton (· ≤ ·) "a"
    show TypeDiff.typeDiff "a" "integer" "string"
      ∈ collectDiffs (get_json_schema (Json.obj [("a", Json.int 1)]) "root")
          (get_json_schema (Json.obj [("a", Json.str "x")]) "root")
          (sortPaths (get_all_paths
              (get_json_schema (Json.obj [("a", Json.int 1)]) "root") ""
            ∩ get_all_paths
              (get_json_schema (Json.obj [("a", Json.str "x")]) "root") ""))
    rw [hcap, hsort]
    decide
  exact ⟨⟨by decide,
    required_always_full_key_set.2.1 (Json.obj [("a", Json.int 1)]) "root" "a" ""
      { type := "integer", required := true, path := "a" } (by decide)⟩,
    hmem, required_always_full_key_set.2.2 (Json.obj [("a", Json.int 1)])
      (Json.obj [("a", Json.str "x")]) "root" "root"
      (TypeDiff.typeDiff "a" "integer" "string") hmem⟩

/-- Claim C1 evaluated at the failing input: the schemas inferred from
`b: [c: 1]` and `b: [c: "x"]` share the path set containing `b[].c`, and the
item schemas resolve `c` to `integer` and `string` respectively — yet
`get_field_info` returns `None` on the path `b[].c` in both schemas (the
object branch only recurses when the target extends a property path by a
`.`, which never matches across a `[]` segment), so `compare_schemas`
records no type difference at all. -/
theorem array_path_type_difference_dropped :
    (get_all_paths
        (get_json_schema (Json.obj [("b", Json.arr [Json.obj [("c", Json.int 1)]])])
          "root") ""
      ∩ get_all_paths
        (get_json_schema (Json.obj [("b", Json.arr [Json.obj [("c", Json.str "x")]])])
          "root") "" = {"b", "b[].c"}) ∧
    get_field_info
        (get_json_schema (Json.obj [("b", Json.arr [Json.obj [("c", Json.int 1)]])])
          "root") "b[].c" "" = none ∧
    get_field_info
        (get_json_schema (Json.obj [("b", Json.arr [Json.obj [("c", Json.str "x")]])])
          "root") "b[].c" "" = none ∧
    get_field_info (get_json_schema (Json.obj [("c", Json.int 1)]) "root[0]") "c" ""
      = some { type := "integer", required := true, path := "c" } ∧
    get_field_info (get_json_schema (Json.obj [("c", Json.str "x")]) "root[0]") "c" ""
      = some { type := "string", required := true, path := "c" } ∧
    (compare_schemas
        (get_json_schema (Json.obj [("b", Json.arr [Json.obj [("c", Json.int 1)]])])
          "root")
        (get_json_schema (Json.obj [("b", Json.arr [Json.obj [("c", Json.str "x")]])])
          "root")).type_differences = [] := by
  refine ⟨by decide, by decide, by decide, by decide, by decide, ?_⟩
  have hcap : get_all_paths
      (get_json_schema (Json.obj [("b", Json.arr [Json.obj [("c", Json.int 1)]])])
        "root") ""
      ∩ get_all_paths
      (get_json_schema (Json.obj [("b", Json.arr [Json.obj [("c", Json.str "x")]])])
        "root") "" = {"b", "b[].c"} := by decide
  have hnil : ∀ ps : List String, (∀ p ∈ ps, p = "b" ∨ p = "b[].c") →
      collectDiffs
        (get_json_schema (Json.obj [("b", Json.arr [Json.obj [("c", Json.int 1)]])])
          "root")
        (get_json_schema (Json.obj [("b", Json.arr [Json.obj [("c", Json.str "x")]])])
          "root") ps = [] := by
    intro ps
    induction ps with
    | nil => intro; rfl
    | cons q rest ih =>
      intro hq
      rw [collectDiffs, ih (fun p hp => hq p (List.mem_cons_of_mem _ hp))]
      rcases hq q (List.mem_cons_self _ _) with rfl | rfl
      · rw [show get_field_info
            (get_json_schema (Json.obj [("b", Json.arr [Json.obj [("c", Json.int 1)]])])
              "root") "b" ""
            = some { type := "array", required := true, path := "b" } from by decide,
          show get_field_info
            (get_json_schema (Json.obj [("b", Json.arr [Json.obj [("c", Json.str "x")]])])
              "root") "b" ""
            = some { type := "array", required := true, path := "b" } from by decide]
        simp
      · rw [show get_field_info
            (get_json_schema (Json.obj [("b", Json.arr [Json.obj [("c", Json.int 1)]])])
              "root") "b[].c" "" = none from by decide]
        simp
  show collectDiffs _ _ (sortPaths _) = []
  refine hnil _ ?_
  intro p hp
  have hmem := (Finset.mem_sort (α := String) (· ≤ ·)).mp hp
  rw [hcap] at hmem
  simpa using hmem

/-- Claim C6: the inferencer maps every JSON kind per the stated policy —
null to Null, boolean to Boolean, a number parsed as integral to Integer, a
number parsed as non-integral to Number, and string to String. -/
theorem inferencer_scalar_policy :
    ∀ (path : String) (b : Bool) (n : Int) (q : Rat) (s : String),
      typeName (get_json_schema Json.null path) = "null" ∧
      typeName (get_json_schema (Json.bool b) path) = "boolean" ∧
      typeName (get_json_schema (Json.int n) path) = "integer" ∧
      typeName (get_json_schema (Json.num q) path) = "number" ∧
      typeName (get_json_schema (Json.str s) path) = "string" := by
  intro path b n q s
  refine ⟨?_, ?_, ?_, ?_, ?_⟩ <;> simp [get_json_schema, typeName]

/-- Claim C8: for every pair of schemas, the missing fields of
`compare_schemas a b` coincide with the additional fields of
`compare_schemas b a`, and vice versa. -/
theorem diff_complementarity (a b : Schema) :
    (compare_schemas a b).missing_fields = (compare_schemas b a).additional_fields ∧
    (compare_schemas a b).additional_fields = (compare_schemas b a).missing_fields :=
  ⟨rfl, rfl⟩

/-- Claim C7: diffing any schema against itself yields no missing fields,
no additional fields and no type differences. -/
theorem diff_identity (s : Schema) :
    (compare_schemas s s).missing_fields = [] ∧
    (compare_schemas s s).additional_fields = [] ∧
    (compare_schemas s s).type_differences = [] := by
  refine ⟨?_, ?_, ?_⟩
  · show sortPaths (get_all_paths s "" \ get_all_paths s "") = []
    rw [Finset.sdiff_self]
    exact Finset.sort_empty _
  · show sortPaths (get_all_paths s "" \ get_all_paths s "") = []
    rw [Finset.sdiff_self]
    exact Finset.sort_empty _
  · exact collectDiffs_self s _

end SchemaTool
